import Mathlib

/-!
Verification development for the EconModel repository (econmodel.py,
functions.py).  The Python source is shallowly embedded: numbers become
rationals (with real-valued square roots where the source calls np.sqrt),
dictionaries become association lists, object mutation becomes explicit
state passing, and every call to a random primitive becomes an explicit
oracle argument.
-/

namespace EconModel

/-! ## Geometry: functions.py -/

/-- A 2D point, as the location tuples of the source. -/
abbrev Point := ℚ × ℚ

/-- Squared coordinate distance: the argument of np.sqrt in
functions.distance. -/
def dist2 (loc1 loc2 : Point) : ℚ :=
  (loc1.1 - loc2.1) ^ 2 + (loc1.2 - loc2.2) ^ 2

/-- functions.distance: np.sqrt((x1-x2)**2 + (y1-y2)**2). -/
noncomputable def distance (loc1 loc2 : Point) : ℝ :=
  Real.sqrt ((dist2 loc1 loc2 : ℚ) : ℝ)

/-- functions.inside, following the source's control flow: two
bounding-box rejection tests on each coordinate difference, then the
strict distance comparison. -/
def inside (loc1 loc2 : Point) (radius : ℚ) : Prop :=
  if loc2.1 - loc1.1 > radius ∨ loc2.1 - loc1.1 < -radius then False
  else if loc2.2 - loc1.2 > radius ∨ loc2.2 - loc1.2 < -radius then False
  else distance loc1 loc2 < (radius : ℝ)

/-- Decidable companion of the strict distance test `distance < r`,
used wherever the source branches on it (proved equivalent in
`insideB_iff_distance_lt`). -/
def insideB (loc1 loc2 : Point) (radius : ℚ) : Bool :=
  decide (0 < radius ∧ dist2 loc1 loc2 < radius ^ 2)

/-- Decidable companion of `distance > r` (proved equivalent in
`distGTb_iff_lt_distance`), used by the placement rejection loop. -/
def distGTb (loc1 loc2 : Point) (radius : ℚ) : Bool :=
  decide (radius < 0 ∨ radius ^ 2 < dist2 loc1 loc2)

lemma dist2_nonneg (loc1 loc2 : Point) : 0 ≤ dist2 loc1 loc2 := by
  unfold dist2
  positivity

lemma distance_nonneg (loc1 loc2 : Point) : 0 ≤ distance loc1 loc2 :=
  Real.sqrt_nonneg _

lemma insideB_iff_distance_lt (loc1 loc2 : Point) (r : ℚ) :
    insideB loc1 loc2 r = true ↔ distance loc1 loc2 < (r : ℝ) := by
  unfold insideB distance
  rw [decide_eq_true_iff]
  constructor
  · rintro ⟨hr, hd⟩
    have hr' : (0 : ℝ) < (r : ℝ) := by exact_mod_cast hr
    rw [Real.sqrt_lt' hr']
    have : ((dist2 loc1 loc2 : ℚ) : ℝ) < ((r ^ 2 : ℚ) : ℝ) := by exact_mod_cast hd
    simpa using this
  · intro h
    have hr' : (0 : ℝ) < (r : ℝ) := lt_of_le_of_lt (Real.sqrt_nonneg _) h
    have hr : 0 < r := by exact_mod_cast hr'
    refine ⟨hr, ?_⟩
    rw [Real.sqrt_lt' hr'] at h
    have : ((dist2 loc1 loc2 : ℚ) : ℝ) < ((r ^ 2 : ℚ) : ℝ) := by push_cast; simpa using h
    exact_mod_cast this

lemma distGTb_iff_lt_distance (loc1 loc2 : Point) (r : ℚ) :
    distGTb loc1 loc2 r = true ↔ (r : ℝ) < distance loc1 loc2 := by
  unfold distGTb distance
  rw [decide_eq_true_iff]
  constructor
  · rintro (hr | hd)
    · have : ((r : ℚ) : ℝ) < 0 := by exact_mod_cast hr
      exact lt_of_lt_of_le this (Real.sqrt_nonneg _)
    · have hr0 : (0 : ℝ) ≤ (r : ℝ) ∨ (r : ℝ) < 0 := le_or_lt 0 _
      rcases hr0 with hr0 | hr0
      · rw [Real.lt_sqrt hr0]
        have : ((r ^ 2 : ℚ) : ℝ) < ((dist2 loc1 loc2 : ℚ) : ℝ) := by exact_mod_cast hd
        simpa using this
      · exact lt_of_lt_of_le hr0 (Real.sqrt_nonneg _)
  · intro h
    rcases lt_or_le r 0 with hr | hr
    · exact Or.inl hr
    · right
      have hr0 : (0 : ℝ) ≤ (r : ℝ) := by exact_mod_cast hr
      rw [Real.lt_sqrt hr0] at h
      have : ((r ^ 2 : ℚ) : ℝ) < ((dist2 loc1 loc2 : ℚ) : ℝ) := by push_cast; simpa using h
      exact_mod_cast this

lemma not_distGTb_iff (loc1 loc2 : Point) (r : ℚ) :
    distGTb loc1 loc2 r = false ↔ distance loc1 loc2 ≤ (r : ℝ) := by
  rw [← not_lt, ← distGTb_iff_lt_distance loc1 loc2 r]
  constructor
  · intro h hc
    rw [h] at hc
    exact Bool.false_ne_true hc
  · intro h
    cases hb : distGTb loc1 loc2 r
    · rfl
    · exact absurd hb h

/-! ## City.pop_density_rand: the placement rejection loop.

The source initializes `loc = (size + 1, 0)` and, while
`distance(loc, (0,0)) > size`, replaces `loc` by a fresh pair of normal
draws — with no retry cap.  The supply of random draws is made explicit
as a list; exhausting the list means the loop is still spinning. -/

/-- The while-loop body of City.pop_density_rand: keep consuming draws
while the current candidate is strictly outside the disk. -/
def pdr_loop (size : ℚ) (loc : Point) : List Point → Option Point
  | [] => if distGTb loc (0, 0) size then none else some loc
  | d :: rest =>
      if distGTb loc (0, 0) size then pdr_loop size d rest else some loc

/-- City.pop_density_rand, given the stream of normal draws. -/
def pop_density_rand (size : ℚ) (draws : List Point) : Option Point :=
  pdr_loop size (size + 1, 0) draws

lemma pdr_loop_all_outside (size : ℚ) :
    ∀ (draws : List Point) (loc : Point),
      distGTb loc (0, 0) size = true →
      (∀ d ∈ draws, distGTb d (0, 0) size = true) →
      pdr_loop size loc draws = none := by
  intro draws
  induction draws with
  | nil =>
      intro loc hloc _
      simp only [pdr_loop, hloc, if_true]
  | cons d rest ih =>
      intro loc hloc hall
      have hd : distGTb d (0, 0) size = true := hall d (by simp)
      have hrest : ∀ x ∈ rest, distGTb x (0, 0) size = true := by
        intro x hx
        exact hall x (by simp [hx])
      simp only [pdr_loop, hloc, if_true]
      exact ih d hd hrest

lemma abs_fst_le_distance (loc1 loc2 : Point) :
    ((|loc2.1 - loc1.1| : ℚ) : ℝ) ≤ distance loc1 loc2 := by
  unfold distance
  have h1 : ((|loc2.1 - loc1.1| : ℚ) : ℝ) =
      Real.sqrt (((loc1.1 - loc2.1 : ℚ) : ℝ) ^ 2) := by
    rw [Real.sqrt_sq_eq_abs]
    push_cast
    rw [abs_sub_comm]
  rw [h1]
  apply Real.sqrt_le_sqrt
  unfold dist2
  push_cast
  nlinarith [sq_nonneg (((loc1.2 : ℚ) : ℝ) - ((loc2.2 : ℚ) : ℝ))]

lemma abs_snd_le_distance (loc1 loc2 : Point) :
    ((|loc2.2 - loc1.2| : ℚ) : ℝ) ≤ distance loc1 loc2 := by
  unfold distance
  have h1 : ((|loc2.2 - loc1.2| : ℚ) : ℝ) =
      Real.sqrt (((loc1.2 - loc2.2 : ℚ) : ℝ) ^ 2) := by
    rw [Real.sqrt_sq_eq_abs]
    push_cast
    rw [abs_sub_comm]
  rw [h1]
  apply Real.sqrt_le_sqrt
  unfold dist2
  push_cast
  nlinarith [sq_nonneg (((loc1.1 : ℚ) : ℝ) - ((loc2.1 : ℚ) : ℝ))]

/-- C9: for all points and radii, `inside` holds exactly when the
Euclidean distance is strictly below the radius: the bounding-box
pre-checks never change the result, so `inside` is extensionally the
plain strict-distance test. -/
theorem c9_inside_iff_distance_lt (loc1 loc2 : Point) (r : ℚ) :
    inside loc1 loc2 r ↔ distance loc1 loc2 < (r : ℝ) := by
  unfold inside
  split_ifs with h1 h2
  · constructor
    · intro h
      exact h.elim
    · intro h
      have habs : r < |loc2.1 - loc1.1| := by
        rcases h1 with h1 | h1
        · exact lt_of_lt_of_le h1 (le_abs_self _)
        · exact lt_of_lt_of_le (by linarith) (neg_le_abs _)
      have : (r : ℝ) < distance loc1 loc2 :=
        lt_of_lt_of_le (by exact_mod_cast habs) (abs_fst_le_distance loc1 loc2)
      exact absurd h (not_lt_of_lt this)
  · constructor
    · intro h
      exact h.elim
    · intro h
      have habs : r < |loc2.2 - loc1.2| := by
        rcases h2 with h2 | h2
        · exact lt_of_lt_of_le h2 (le_abs_self _)
        · exact lt_of_lt_of_le (by linarith) (neg_le_abs _)
      have : (r : ℝ) < distance loc1 loc2 :=
        lt_of_lt_of_le (by exact_mod_cast habs) (abs_snd_le_distance loc1 loc2)
      exact absurd h (not_lt_of_lt this)
  · exact Iff.rfl

/-- C4: the placement rejection loop has no retry bound.  For every n,
if the first n draws land outside the disk the loop is still spinning
after consuming all of them (no GeometryError path exists in the code),
and it succeeds exactly when a draw finally lands inside — after
arbitrarily many retries. -/
theorem c4_unbounded_rejection (n : ℕ) :
    pop_density_rand 1 (List.replicate n ((2 : ℚ), (0 : ℚ))) = none ∧
    pop_density_rand 1 (List.replicate n ((2 : ℚ), (0 : ℚ)) ++ [((0 : ℚ), (0 : ℚ))]) =
      some ((0 : ℚ), (0 : ℚ)) := by
  have hout : ∀ loc : Point, loc = ((2 : ℚ), (0 : ℚ)) ∨ loc = ((1 : ℚ) + 1, (0 : ℚ)) →
      distGTb loc (0, 0) 1 = true := by
    rintro loc (rfl | rfl) <;>
      · simp only [distGTb, dist2, decide_eq_true_iff]
        norm_num
  have horigin : distGTb ((0 : ℚ), (0 : ℚ)) (0, 0) 1 = false := by
    simp only [distGTb, dist2]
    norm_num
  constructor
  · unfold pop_density_rand
    apply pdr_loop_all_outside
    · exact hout _ (Or.inr rfl)
    · intro d hd
      exact hout d (Or.inl (List.eq_of_mem_replicate hd))
  · unfold pop_density_rand
    have key : ∀ (m : ℕ) (loc : Point), distGTb loc (0, 0) 1 = true →
        pdr_loop 1 loc (List.replicate m ((2 : ℚ), (0 : ℚ)) ++ [((0 : ℚ), (0 : ℚ))]) =
          some ((0 : ℚ), (0 : ℚ)) := by
      intro m
      induction m with
      | zero =>
          intro loc hloc
          simp only [List.replicate, List.nil_append, pdr_loop, hloc, if_true]
          simp only [horigin, Bool.false_eq_true, if_false]
      | succ k ih =>
          intro loc hloc
          simp only [List.replicate, List.cons_append, pdr_loop, hloc, if_true]
          exact ih _ (hout _ (Or.inl rfl))
    exact key n _ (hout _ (Or.inr rfl))

/-! ## DemandType (econmodel.py) and the per-type need accumulator -/

/-- DemandType: immutable record (name, Poisson arrival rate, unit
price). -/
structure DemandType where
  dname : String
  dlambda : ℚ
  dprice : ℚ
deriving DecidableEq

/-- DemandType.demand_radius: 1. + need_amount / self.dlambda. -/
def demand_radius (dt : DemandType) (need_amount : ℚ) : ℚ :=
  1 + need_amount / dt.dlambda

/-- One demand type's share of Person.generate: the accumulator gains
the Poisson draw k times the type's unit price. -/
def generate_need (dt : DemandType) (needAmt : ℚ) (k : ℕ) : ℚ :=
  needAmt + (k : ℚ) * dt.dprice

/-- Person.give_biz restricted to one need type: the payment is the
accumulated need times the unit price (a second application of the
price); it is credited to the business's cash and the need is reset
to 0.  Returns (new business cash, new need amount). -/
def give_biz (dt : DemandType) (needAmt cash : ℚ) : ℚ × ℚ :=
  (cash + needAmt * dt.dprice, 0)

/-- The operations that can touch one person's accumulator for one
demand type during a run: a generation draw, a fulfillment with a
non-empty candidate set (give_biz fires), or one with an empty
candidate set (the need carries over). -/
inductive NeedOp where
  | gen (k : ℕ)
  | fulfillHit
  | fulfillMiss
deriving DecidableEq

/-- Effect of one operation on the accumulator. -/
def needStep (dt : DemandType) (amt : ℚ) : NeedOp → ℚ
  | NeedOp.gen k => generate_need dt amt k
  | NeedOp.fulfillHit => (give_biz dt amt 0).2
  | NeedOp.fulfillMiss => amt

/-- The accumulator after a sequence of operations, starting from the
0 set by Person.init_needs. -/
def runNeeds (dt : DemandType) (ops : List NeedOp) : ℚ :=
  ops.foldl (needStep dt) 0

/-- A demand type whose unit price is 2, exhibiting the double
application of the price in give_biz. -/
def dtDouble : DemandType := ⟨"food", 1, 2⟩

/-- C1 counterexample: with unit price 2 and an accumulated
(currency-denominated) need of 6, the transaction credits the business
with 12, not with the accumulated amount 6. -/
theorem c1_counterexample : (give_biz dtDouble 6 0).1 ≠ 0 + 6 := by
  norm_num [give_biz, dtDouble]

/-- C1 (amended): the fulfillment transaction credits the chosen
business's cash with the accumulated need amount multiplied once more
by the type's unit price — so a need accumulated from k arrival draws
is credited as k times the price squared — and resets the need to 0. -/
theorem c1_payment_double_price (dt : DemandType) (needAmt cash : ℚ) (k : ℕ) :
    give_biz dt needAmt cash = (cash + needAmt * dt.dprice, 0) ∧
    give_biz dt (generate_need dt 0 k) cash = (cash + (k : ℚ) * dt.dprice ^ 2, 0) := by
  refine ⟨rfl, ?_⟩
  unfold give_biz generate_need
  norm_num
  ring

lemma runNeeds_aux_nonneg (dt : DemandType) (hp : 0 ≤ dt.dprice) :
    ∀ (ops : List NeedOp) (a : ℚ), 0 ≤ a → 0 ≤ ops.foldl (needStep dt) a := by
  intro ops
  induction ops with
  | nil =>
      intro a ha
      simpa using ha
  | cons op rest ih =>
      intro a ha
      rw [List.foldl_cons]
      apply ih
      cases op with
      | gen k =>
          simp only [needStep, generate_need]
          have hk : 0 ≤ (k : ℚ) * dt.dprice := mul_nonneg (by positivity) hp
          linarith
      | fulfillHit =>
          simp only [needStep, give_biz]
          exact le_rfl
      | fulfillMiss =>
          simpa only [needStep] using ha

/-- C6: assuming a non-negative arrival rate and unit price, the
unmet-need accumulator is never negative under any sequence of
generate/fulfill operations, and it is exactly 0 immediately after a
fulfillment event for that type. -/
theorem c6_need_nonneg_reset (dt : DemandType)
    (_hl : 0 ≤ dt.dlambda) (hp : 0 ≤ dt.dprice) :
    (∀ ops : List NeedOp, 0 ≤ runNeeds dt ops) ∧
    (∀ ops : List NeedOp, runNeeds dt (ops ++ [NeedOp.fulfillHit]) = 0) ∧
    (∀ amt : ℚ, needStep dt amt NeedOp.fulfillHit = 0) := by
  refine ⟨?_, ?_, ?_⟩
  · intro ops
    exact runNeeds_aux_nonneg dt hp ops 0 le_rfl
  · intro ops
    unfold runNeeds
    rw [List.foldl_append]
    rfl
  · intro amt
    rfl

/-- Concrete instantiation of c6_need_nonneg_reset. -/
theorem c6_need_nonneg_reset_witness :
    (0 ≤ dtDouble.dlambda ∧ 0 ≤ dtDouble.dprice) ∧
    ((∀ ops : List NeedOp, 0 ≤ runNeeds dtDouble ops) ∧
     (∀ ops : List NeedOp, runNeeds dtDouble (ops ++ [NeedOp.fulfillHit]) = 0) ∧
     (∀ amt : ℚ, needStep dtDouble amt NeedOp.fulfillHit = 0)) :=
  ⟨⟨by norm_num [dtDouble], by norm_num [dtDouble]⟩,
   c6_need_nonneg_reset dtDouble (by norm_num [dtDouble]) (by norm_num [dtDouble])⟩

/-- C8: for a demand type with positive arrival rate, the search radius
is exactly 1 at zero accumulated need, equals 1 + need / rate, and is
strictly increasing in the accumulated need. -/
theorem c8_demand_radius (dt : DemandType) (hl : 0 < dt.dlambda) :
    demand_radius dt 0 = 1 ∧
    (∀ a : ℚ, demand_radius dt a = 1 + a / dt.dlambda) ∧
    StrictMono (demand_radius dt) := by
  refine ⟨?_, fun a => rfl, ?_⟩
  · unfold demand_radius
    norm_num
  · intro a b hab
    unfold demand_radius
    have : a / dt.dlambda < b / dt.dlambda := by
      exact div_lt_div_of_pos_right hab hl
    linarith

/-- Concrete instantiation of c8_demand_radius. -/
theorem c8_demand_radius_witness :
    0 < dtDouble.dlambda ∧
    (demand_radius dtDouble 0 = 1 ∧
     (∀ a : ℚ, demand_radius dtDouble a = 1 + a / dtDouble.dlambda) ∧
     StrictMono (demand_radius dtDouble)) :=
  ⟨by norm_num [dtDouble], c8_demand_radius dtDouble (by norm_num [dtDouble])⟩

/-! ## Startup selection (City.city_cycle, phase 2 inner loop)

The source scans the business-type registry with `best = 0`,
`best_type = None`, updating both on a strictly greater score, and
starts the recorded type when `best >= 1`.  The scan is modelled as a
fold over the registry's iteration order, keeping each candidate
paired with its score. -/

/-- One registry entry step of the phase-2 scan. -/
def selStep {α : Type} (acc : ℚ × Option α) (p : α × ℚ) : ℚ × Option α :=
  if p.2 > acc.1 then (p.2, some p.1) else acc

/-- The phase-2 scan from an arbitrary accumulator. -/
def selectLoop {α : Type} (acc : ℚ × Option α) (scores : List (α × ℚ)) : ℚ × Option α :=
  scores.foldl selStep acc

/-- The phase-2 scan as the source runs it: best = 0, best_type =
None. -/
def selectBest {α : Type} (scores : List (α × ℚ)) : ℚ × Option α :=
  selectLoop ((0 : ℚ), (none : Option α)) scores

lemma selectLoop_characterization {α : Type} :
    ∀ (l : List (α × ℚ)) (acc : ℚ × Option α),
      (selectLoop acc l = acc ∧ ∀ q ∈ l, q.2 ≤ acc.1) ∨
      (∃ pre p post, l = pre ++ p :: post ∧
        (selectLoop acc l).1 = p.2 ∧ (selectLoop acc l).2 = some p.1 ∧
        acc.1 < p.2 ∧ (∀ q ∈ pre, q.2 < p.2) ∧ (∀ q ∈ post, q.2 ≤ p.2)) := by
  intro l
  induction l with
  | nil =>
      intro acc
      left
      exact ⟨rfl, by simp⟩
  | cons x rest ih =>
      intro acc
      by_cases hx : x.2 > acc.1
      · have hstep : selectLoop acc (x :: rest) = selectLoop (x.2, some x.1) rest := by
          simp only [selectLoop, List.foldl_cons, selStep, hx, if_true]
        rcases ih (x.2, some x.1) with ⟨heq, hall⟩ | ⟨pre, p, post, hsplit, h1, h2, hlt, hpre, hpost⟩
        · right
          refine ⟨[], x, rest, by simp, ?_, ?_, hx, by simp, ?_⟩
          · rw [hstep, heq]
          · rw [hstep, heq]
          · intro q hq
            exact hall q hq
        · right
          refine ⟨x :: pre, p, post, by rw [hsplit]; simp, ?_, ?_, ?_, ?_, hpost⟩
          · rw [hstep, h1]
          · rw [hstep, h2]
          · exact lt_trans hx hlt
          · intro q hq
            rcases List.mem_cons.mp hq with rfl | hq
            · exact hlt
            · exact hpre q hq
      · have hstep : selectLoop acc (x :: rest) = selectLoop acc rest := by
          simp only [selectLoop, List.foldl_cons, selStep, hx, if_false]
        rcases ih acc with ⟨heq, hall⟩ | ⟨pre, p, post, hsplit, h1, h2, hlt, hpre, hpost⟩
        · left
          refine ⟨by rw [hstep, heq], ?_⟩
          intro q hq
          rcases List.mem_cons.mp hq with rfl | hq
          · exact le_of_not_lt hx
          · exact hall q hq
        · right
          refine ⟨x :: pre, p, post, by rw [hsplit]; simp, ?_, ?_, hlt, ?_, hpost⟩
          · rw [hstep, h1]
          · rw [hstep, h2]
          · intro q hq
            rcases List.mem_cons.mp hq with rfl | hq
            · exact lt_of_le_of_lt (le_of_not_lt hx) hlt
            · exact hpre q hq

lemma selectBest_le {α : Type} (l : List (α × ℚ)) :
    ∀ q ∈ l, q.2 ≤ (selectBest l).1 := by
  intro q hq
  rcases selectLoop_characterization l ((0 : ℚ), (none : Option α)) with
    ⟨heq, hall⟩ | ⟨pre, p, post, hsplit, h1, _h2, _hlt, hpre, hpost⟩
  · have := hall q hq
    unfold selectBest
    rw [heq]
    exact this
  · unfold selectBest
    rw [h1]
    rw [hsplit] at hq
    rcases List.mem_append.mp hq with hq | hq
    · exact le_of_lt (hpre q hq)
    · rcases List.mem_cons.mp hq with rfl | hq
      · exact le_rfl
      · exact hpost q hq

/-- C3 counterexample: two registries holding the same two type
entries, each scoring 2, in the two possible iteration orders.  The
scan picks whichever tied entry it meets first, so the choice depends
on registry iteration order and is not a function of the type
identifiers alone. -/
theorem c3_counterexample :
    List.Perm [(("a" : String), (2 : ℚ)), ("b", 2)] [("b", 2), ("a", 2)] ∧
    (selectBest [(("a" : String), (2 : ℚ)), ("b", 2)]).2 = some "a" ∧
    (selectBest [(("b" : String), (2 : ℚ)), ("a", 2)]).2 = some "b" := by
  refine ⟨List.Perm.swap _ _ _, ?_, ?_⟩ <;>
    · simp only [selectBest, selectLoop, List.foldl_cons, List.foldl_nil, selStep]
      norm_num

/-- C3 (amended): at a vacant location a business is started iff some
type's startup score is at least 1; the chosen type attains the
maximum score; but when several types tie at the maximum, the one met
first in registry iteration order wins (earlier entries all score
strictly below the chosen score, later ones at most it), so the choice
depends on iteration order rather than on type identifiers alone. -/
theorem c3_startup_selection {α : Type} (l : List (α × ℚ)) :
    (1 ≤ (selectBest l).1 ↔ ∃ p ∈ l, 1 ≤ p.2) ∧
    (∀ t, (selectBest l).2 = some t →
      ∃ pre post, l = pre ++ ((t, (selectBest l).1) :: post) ∧
        (∀ q ∈ pre, q.2 < (selectBest l).1) ∧
        (∀ q ∈ post, q.2 ≤ (selectBest l).1) ∧
        (∀ q ∈ l, q.2 ≤ (selectBest l).1)) ∧
    (1 ≤ (selectBest l).1 → (selectBest l).2 ≠ none) := by
  rcases selectLoop_characterization l ((0 : ℚ), (none : Option α)) with
    ⟨heq, hall⟩ | ⟨pre, p, post, hsplit, h1, h2, hlt, hpre, hpost⟩
  · have hbest : (selectBest l).1 = 0 := by
      unfold selectBest
      rw [heq]
    have hnone : (selectBest l).2 = none := by
      unfold selectBest
      rw [heq]
    refine ⟨?_, ?_, ?_⟩
    · constructor
      · intro h
        rw [hbest] at h
        norm_num at h
      · rintro ⟨q, hq, hq1⟩
        have hq0 := hall q hq
        simp only at hq0
        linarith
    · intro t ht
      rw [hnone] at ht
      exact absurd ht (by simp)
    · intro h
      rw [hbest] at h
      norm_num at h
  · have hbest : (selectBest l).1 = p.2 := h1
    have hsel : (selectBest l).2 = some p.1 := h2
    have hmax : ∀ q ∈ l, q.2 ≤ (selectBest l).1 := selectBest_le l
    refine ⟨?_, ?_, ?_⟩
    · constructor
      · intro h
        refine ⟨p, ?_, ?_⟩
        · rw [hsplit]
          simp
        · rw [hbest] at h
          exact h
      · rintro ⟨q, hq, hq1⟩
        exact le_trans hq1 (hmax q hq)
    · intro t ht
      rw [hsel] at ht
      have hpt : p.1 = t := by
        injection ht
      refine ⟨pre, post, ?_, ?_, ?_, hmax⟩
      · rw [hbest, ← hpt]
        rw [hsplit]
      · intro q hq
        rw [hbest]
        exact hpre q hq
      · intro q hq
        rw [hbest]
        exact hpost q hq
    · intro _
      rw [hsel]
      simp

/-- Concrete instantiation of c3_startup_selection. -/
theorem c3_startup_selection_witness :
    (1 ≤ (selectBest [(("a" : String), (2 : ℚ))]).1 ↔
      ∃ p ∈ [(("a" : String), (2 : ℚ))], 1 ≤ p.2) ∧
    (∀ t, (selectBest [(("a" : String), (2 : ℚ))]).2 = some t →
      ∃ pre post, [(("a" : String), (2 : ℚ))] =
          pre ++ ((t, (selectBest [(("a" : String), (2 : ℚ))]).1) :: post) ∧
        (∀ q ∈ pre, q.2 < (selectBest [(("a" : String), (2 : ℚ))]).1) ∧
        (∀ q ∈ post, q.2 ≤ (selectBest [(("a" : String), (2 : ℚ))]).1) ∧
        (∀ q ∈ [(("a" : String), (2 : ℚ))], q.2 ≤ (selectBest [(("a" : String), (2 : ℚ))]).1)) ∧
    (1 ≤ (selectBest [(("a" : String), (2 : ℚ))]).1 →
      (selectBest [(("a" : String), (2 : ℚ))]).2 ≠ none) :=
  c3_startup_selection [(("a" : String), (2 : ℚ))]

/-! ## BusinessType, Person, Business, and the City's mutable core -/

/-- BusinessType: immutable record loaded from config. -/
structure BusinessType where
  bname : String
  initial_cash : ℚ
  initial_need_threshold : ℚ
  initial_need_radius : ℚ
  burnrate : ℚ
deriving DecidableEq

/-- Person: coordinate plus the per-demand-type unmet-need
accumulators (the needs dict as an association list in registry
order). -/
structure Person where
  location : Point
  needs : List (String × ℚ)
deriving DecidableEq

/-- Person.init_needs: a 0 accumulator for every demand type. -/
def init_needs (dts : List DemandType) : List (String × ℚ) :=
  dts.map (fun dt => (dt.dname, (0 : ℚ)))

/-- Dictionary read p.needs[k]. -/
def needOf (p : Person) (k : String) : ℚ :=
  ((p.needs.find? (fun q => q.1 == k)).map (fun q => q.2)).getD 0

/-- Business: the Python object's persistent fields.  The
BusinessLocation reference becomes the index of that location in the
city's list; `location` is the coordinate copied from it at birth. -/
structure Business where
  locIdx : ℕ
  location : Point
  btype : BusinessType
  cash : ℚ
  birthday : ℕ
  deathday : Option ℕ
  lifespan : Option ℤ
deriving DecidableEq

instance : Inhabited Business :=
  ⟨⟨0, (0, 0), ⟨"", 0, 0, 0, 0⟩, 0, 0, none, none⟩⟩

/-- self.type = btype.bname. -/
def Business.type (b : Business) : String := b.btype.bname

/-- Cast a lattice coordinate to a point. -/
def q2 (c : ℤ × ℤ) : Point := ((c.1 : ℚ), (c.2 : ℚ))

/-- The City state touched by the cycle phases: people, the fixed
BusinessLocation coordinates with their `available` flags (parallel
lists), the active and failed business collections, and the age. -/
structure Core where
  people : List Person
  coords : List (ℤ × ℤ)
  flags : List Bool
  active : List Business
  failed : List Business
  age : ℕ
deriving DecidableEq

/-- BusinessType.startup at location index i: Business.__init__ fills
the location's flag, copies its coordinate, takes the type's initial
cash and birthday = city.age, and the new business is appended to
city.businesses. -/
def startupAt (c : Core) (bt : BusinessType) (i : ℕ) : Core :=
  { c with
    active := c.active ++
      [{ locIdx := i, location := q2 (c.coords.getD i (0, 0)), btype := bt,
         cash := bt.initial_cash, birthday := c.age,
         deathday := none, lifespan := none }],
    flags := c.flags.set i false }

/-- City.bizfail on the active business at position j: append it to
failed_businesses, remove it from businesses, free its location. -/
def bizfail (c : Core) (j : ℕ) : Core :=
  let b := c.active.getD j default
  { c with
    failed := c.failed ++ [b],
    active := c.active.eraseIdx j,
    flags := c.flags.set b.locIdx true }

/-- Business.die on the active business at position j: record
deathday = city.age and lifespan = deathday - birthday, then
City.bizfail. -/
def die (c : Core) (j : ℕ) : Core :=
  let b := c.active.getD j default
  let b' := { b with deathday := some c.age,
                     lifespan := some ((c.age : ℤ) - (b.birthday : ℤ)) }
  bizfail { c with active := c.active.set j b' } j

/-- Business.burn on the active business at position j: deduct the
type's burn rate from cash; if the result is negative, die. -/
def burnAt (c : Core) (j : ℕ) : Core :=
  let b := c.active.getD j default
  let b' := { b with cash := b.cash - b.btype.burnrate }
  let c' := { c with active := c.active.set j b' }
  if b'.cash < 0 then die c' j else c'

/-- Phase 4 of City.city_cycle: `for b in self.businesses: b.burn()`.
The Python list iterator holds a bare index that advances by one per
step while burn/die may remove the current element from the very list
being iterated; `fuel` (initially the list length, an upper bound on
the iteration count) makes the recursion structural. -/
def burnGo : Core → ℕ → ℕ → Core
  | c, _, 0 => c
  | c, i, fuel + 1 =>
      if i < c.active.length then burnGo (burnAt c i) (i + 1) fuel else c

/-- The whole burn phase. -/
def burnPhase (c : Core) : Core := burnGo c 0 c.active.length

lemma eraseIdx_set_same {α : Type} :
    ∀ (l : List α) (j : ℕ) (x : α), (l.set j x).eraseIdx j = l.eraseIdx j := by
  intro l
  induction l with
  | nil =>
      intro j x
      simp [List.set, List.eraseIdx]
  | cons a rest ih =>
      intro j x
      cases j with
      | zero => simp [List.set, List.eraseIdx]
      | succ k =>
          simp only [List.set, List.eraseIdx]
          rw [ih k x]

lemma getD_set_self {α : Type} [Inhabited α] (l : List α) (j : ℕ) (x : α)
    (h : j < l.length) : (l.set j x).getD j default = x := by
  rw [List.getD_eq_getElem?_getD, List.getElem?_set_self h]
  rfl

/-- The observable outcome of one burn() call on the business at
position j: either the cash drop leaves it alive in place, or it dies
in this same cycle — deathday = city.age, lifespan = deathday −
birthday, location freed, moved from active to failed. -/
def BurnAtSpec (c : Core) (j : ℕ) : Prop :=
  let b := c.active.getD j default
  let cashAfter := b.cash - b.btype.burnrate
  (0 ≤ cashAfter →
    (burnAt c j).active = c.active.set j { b with cash := cashAfter } ∧
    (burnAt c j).failed = c.failed ∧
    (burnAt c j).flags = c.flags ∧
    (burnAt c j).active.length = c.active.length) ∧
  (cashAfter < 0 →
    (burnAt c j).active = c.active.eraseIdx j ∧
    (burnAt c j).failed = c.failed ++
      [{ b with cash := cashAfter, deathday := some c.age,
                lifespan := some ((c.age : ℤ) - (b.birthday : ℤ)) }] ∧
    (burnAt c j).flags = c.flags.set b.locIdx true ∧
    (burnAt c j).active.length + 1 = c.active.length)

lemma burnAt_cases (c : Core) (j : ℕ) (hj : j < c.active.length) :
    BurnAtSpec c j := by
  unfold BurnAtSpec burnAt
  set b := c.active.getD j default with hb
  set cashAfter := b.cash - b.btype.burnrate with hca
  constructor
  · intro hpos
    have hcond : ¬ ({ b with cash := cashAfter }.cash < 0) := by
      simp only
      linarith
    simp only [hcond, if_false]
    refine ⟨trivial, trivial, trivial, ?_⟩
    simp [List.length_set]
  · intro hneg
    have hcond : ({ b with cash := cashAfter }.cash < 0) := by
      simpa only using hneg
    simp only [hcond, if_true]
    unfold die bizfail
    have hlen : j < (c.active.set j { b with cash := cashAfter }).length := by
      simpa [List.length_set] using hj
    have hget : (c.active.set j { b with cash := cashAfter }).getD j default =
        { b with cash := cashAfter } := getD_set_self _ j _ hj
    simp only [hget]
    have hget2 : ((c.active.set j { b with cash := cashAfter }).set j
          { b with cash := cashAfter, deathday := some c.age,
                   lifespan := some ((c.age : ℤ) - (b.birthday : ℤ)) }).getD j default =
        { b with cash := cashAfter, deathday := some c.age,
                 lifespan := some ((c.age : ℤ) - (b.birthday : ℤ)) } := by
      apply getD_set_self
      simpa [List.length_set] using hj
    simp only [hget2]
    rw [List.set_set, eraseIdx_set_same]
    refine ⟨rfl, trivial, trivial, ?_⟩
    rw [List.length_eraseIdx]
    simp only [hj, if_true]
    omega

/-- C5: after burn() the business's cash is its pre-burn cash minus
its type's burn rate, exactly; it dies in the same cycle iff that
result is negative, and then its deathday is the current city age, its
lifespan deathday − birthday, its location flag is freed, and it moves
from the active to the failed collection. -/
theorem c5_burn_exact_and_death (c : Core) (j : ℕ) (hj : j < c.active.length) :
    BurnAtSpec c j :=
  burnAt_cases c j hj

/-- Concrete instantiation of c5_burn_exact_and_death: a business with
cash 1/2 and burn rate 1 dies in the cycle where its cash goes to
−1/2. -/
theorem c5_burn_exact_and_death_witness :
    0 < (Core.mk [] [(0, 0)] [false]
          [{ locIdx := 0, location := (0, 0), btype := ⟨"shop", 10, 2, 2, 1⟩,
             cash := 1/2, birthday := 3, deathday := none, lifespan := none }]
          [] 7).active.length ∧
    BurnAtSpec (Core.mk [] [(0, 0)] [false]
          [{ locIdx := 0, location := (0, 0), btype := ⟨"shop", 10, 2, 2, 1⟩,
             cash := 1/2, birthday := 3, deathday := none, lifespan := none }]
          [] 7) 0 :=
  ⟨by simp,
   c5_burn_exact_and_death _ 0 (by simp)⟩

/-! ## List helpers used by the occupancy invariant -/

lemma getD_set_at {α : Type} (l : List α) (j : ℕ) (x d : α) (h : j < l.length) :
    (l.set j x).getD j d = x := by
  rw [List.getD_eq_getElem?_getD, List.getElem?_set_self h]
  rfl

lemma getD_set_ne {α : Type} (l : List α) (i j : ℕ) (x d : α) (h : i ≠ j) :
    (l.set i x).getD j d = l.getD j d := by
  rw [List.getD_eq_getElem?_getD, List.getElem?_set_ne h, ← List.getD_eq_getElem?_getD]

lemma getD_map_at {α β : Type} (f : α → β) (l : List α) (j : ℕ) (d : α) (e : β)
    (h : j < l.length) : (l.map f).getD j e = f (l.getD j d) := by
  have hm : j < (l.map f).length := by simpa using h
  rw [List.getD_eq_getElem _ _ hm, List.getD_eq_getElem _ _ h, List.getElem_map]

lemma set_getD_self {α : Type} :
    ∀ (l : List α) (j : ℕ) (d : α), j < l.length → l.set j (l.getD j d) = l := by
  intro l
  induction l with
  | nil =>
      intro j d h
      simp at h
  | cons a rest ih =>
      intro j d h
      cases j with
      | zero => rfl
      | succ k =>
          have hk : k < rest.length := by
            simp only [List.length_cons] at h
            omega
          simp only [List.set, List.getD_cons_succ]
          rw [ih k d hk]

lemma map_eraseIdx_comm {α β : Type} (f : α → β) :
    ∀ (l : List α) (j : ℕ), (l.eraseIdx j).map f = (l.map f).eraseIdx j := by
  intro l
  induction l with
  | nil =>
      intro j
      simp [List.eraseIdx]
  | cons a rest ih =>
      intro j
      cases j with
      | zero => rfl
      | succ k =>
          simp only [List.eraseIdx, List.map_cons]
          rw [ih k]

lemma nodup_eraseIdx_ne {β : Type} (d : β) :
    ∀ (L : List β) (j : ℕ), L.Nodup → j < L.length →
      ∀ y ∈ L.eraseIdx j, y ≠ L.getD j d := by
  intro L
  induction L with
  | nil =>
      intro j _ hj
      simp at hj
  | cons a rest ih =>
      intro j hnd hj y hy
      cases j with
      | zero =>
          simp only [List.eraseIdx] at hy
          intro he
          rw [List.getD_cons_zero] at he
          exact (List.nodup_cons.mp hnd).1 (he ▸ hy)
      | succ k =>
          have hk : k < rest.length := by
            simp only [List.length_cons] at hj
            omega
          simp only [List.eraseIdx] at hy
          rcases List.mem_cons.mp hy with rfl | hy
          · intro he
            rw [List.getD_cons_succ] at he
            have hmem : rest.getD k d ∈ rest := by
              rw [List.getD_eq_getElem rest d hk]
              exact List.getElem_mem hk
            exact (List.nodup_cons.mp hnd).1 (he ▸ hmem)
          · intro he
            rw [List.getD_cons_succ] at he
            exact ih k (List.nodup_cons.mp hnd).2 hk y hy he

/-! ## City.generate_business_locations and business_populate -/

/-- Python int(): truncation toward zero. -/
def ratTrunc (q : ℚ) : ℤ := if 0 ≤ q then ⌊q⌋ else -⌊-q⌋

/-- Python range(-k, k + 1). -/
def latticeRange (k : ℤ) : List ℤ :=
  (List.range (2 * k + 1).toNat).map (fun i : ℕ => -k + (i : ℤ))

/-- City.generate_business_locations: every integer lattice point of
the square scan (x outer, y inner) that passes f.inside against the
city radius; the strict-distance semantics of f.inside is evaluated
through insideB (equivalent by insideB_iff_distance_lt). -/
def gen_business_locations (size : ℚ) : List (ℤ × ℤ) :=
  ((latticeRange (ratTrunc size)).product (latticeRange (ratTrunc size))).filter
    (fun co => insideB (q2 co) (0, 0) size)

lemma latticeRange_nodup (k : ℤ) : (latticeRange k).Nodup := by
  unfold latticeRange
  refine List.Nodup.map ?_ (List.nodup_range _)
  intro i j hij
  have h2 : (i : ℤ) = (j : ℤ) := add_left_cancel hij
  exact_mod_cast h2

lemma gen_business_locations_nodup (size : ℚ) :
    (gen_business_locations size).Nodup :=
  List.Nodup.filter _
    (List.Nodup.product (latticeRange_nodup _) (latticeRange_nodup _))

/-- City.business_populate's startup loop (and phase 2's startups): a
sequence of (location index, business type) startups applied in
order. -/
def business_populate (c : Core) (pairs : List (ℕ × BusinessType)) : Core :=
  pairs.foldl (fun st pr => startupAt st pr.2 pr.1) c

/-! ## The occupancy invariant (C7) -/

/-- The location-occupancy invariant: the fixed coordinates are
distinct; the availability flags are parallel to them; every active
business holds a valid location index, carries that location's
coordinate, and that location's flag is cleared; and no two active
businesses share a location index. -/
def InvC (c : Core) : Prop :=
  c.coords.Nodup ∧
  c.flags.length = c.coords.length ∧
  (∀ b ∈ c.active, b.locIdx < c.coords.length ∧
    b.location = q2 (c.coords.getD b.locIdx (0, 0)) ∧
    c.flags.getD b.locIdx true = false) ∧
  (c.active.map Business.locIdx).Nodup

instance (c : Core) : Decidable (InvC c) := by
  unfold InvC
  infer_instance

lemma InvC_startupAt (c : Core) (bt : BusinessType) (i : ℕ)
    (hInv : InvC c) (hi : i < c.coords.length)
    (hflag : c.flags.getD i true = true) :
    InvC (startupAt c bt i) := by
  obtain ⟨hcn, hfl, hmem, hnd⟩ := hInv
  refine ⟨hcn, ?_, ?_, ?_⟩
  · simp only [startupAt, List.length_set]
    exact hfl
  · intro b hb
    simp only [startupAt, List.mem_append, List.mem_singleton] at hb
    rcases hb with hb | rfl
    · obtain ⟨h1, h2, h3⟩ := hmem b hb
      have hne : b.locIdx ≠ i := by
        intro he
        rw [he] at h3
        rw [h3] at hflag
        exact Bool.false_ne_true hflag
      refine ⟨h1, h2, ?_⟩
      show (c.flags.set i false).getD b.locIdx true = false
      rw [getD_set_ne _ _ _ _ _ (Ne.symm hne)]
      exact h3
    · refine ⟨hi, rfl, ?_⟩
      show (c.flags.set i false).getD i true = false
      exact getD_set_at _ _ _ _ (by rw [hfl]; exact hi)
  · show ((c.active ++ [_]).map Business.locIdx).Nodup
    rw [List.map_append]
    rw [List.nodup_append]
    refine ⟨hnd, by simp, ?_⟩
    intro a ha hb
    simp only [List.map_cons, List.map_nil, List.mem_singleton] at hb
    rcases List.mem_map.mp ha with ⟨b, hbmem, hba⟩
    obtain ⟨_, _, h3⟩ := hmem b hbmem
    rw [hba, hb] at h3
    rw [h3] at hflag
    exact Bool.false_ne_true hflag

lemma burnAt_coords (c : Core) (j : ℕ) : (burnAt c j).coords = c.coords := by
  simp only [burnAt, die, bizfail]
  split <;> rfl

lemma burnAt_people (c : Core) (j : ℕ) : (burnAt c j).people = c.people := by
  simp only [burnAt, die, bizfail]
  split <;> rfl

lemma burnAt_age (c : Core) (j : ℕ) : (burnAt c j).age = c.age := by
  simp only [burnAt, die, bizfail]
  split <;> rfl

lemma InvC_burnAt (c : Core) (j : ℕ) (hInv : InvC c) (hj : j < c.active.length) :
    InvC (burnAt c j) := by
  obtain ⟨hcn, hfl, hmem, hnd⟩ := hInv
  obtain ⟨hlive, hdead⟩ := burnAt_cases c j hj
  have hbmem : c.active.getD j default ∈ c.active := by
    rw [List.getD_eq_getElem _ _ hj]
    exact List.getElem_mem hj
  by_cases hc : 0 ≤ (c.active.getD j default).cash -
      (c.active.getD j default).btype.burnrate
  · obtain ⟨ha, hf, hg, _⟩ := hlive hc
    refine ⟨?_, ?_, ?_, ?_⟩
    · rw [burnAt_coords]
      exact hcn
    · rw [burnAt_coords, hg]
      exact hfl
    · intro b hb
      rw [ha] at hb
      rcases List.mem_or_eq_of_mem_set hb with hb | rfl
      · obtain ⟨h1, h2, h3⟩ := hmem b hb
        rw [burnAt_coords, hg]
        exact ⟨h1, h2, h3⟩
      · obtain ⟨h1, h2, h3⟩ := hmem _ hbmem
        rw [burnAt_coords, hg]
        exact ⟨h1, h2, h3⟩
    · rw [ha, List.map_set]
      have hmapj : (c.active.map Business.locIdx).getD j 0 =
          (c.active.getD j default).locIdx :=
        getD_map_at _ _ _ _ _ hj
      have : (c.active.map Business.locIdx).set j
            (c.active.getD j default).locIdx = c.active.map Business.locIdx := by
        rw [← hmapj]
        exact set_getD_self _ _ _ (by simpa using hj)
      rw [this]
      exact hnd
  · have hneg : (c.active.getD j default).cash -
        (c.active.getD j default).btype.burnrate < 0 := by linarith
    obtain ⟨ha, _hf, hg, _⟩ := hdead hneg
    refine ⟨?_, ?_, ?_, ?_⟩
    · rw [burnAt_coords]
      exact hcn
    · rw [burnAt_coords, hg, List.length_set]
      exact hfl
    · intro b hb
      rw [ha] at hb
      have hbact : b ∈ c.active := (List.eraseIdx_sublist c.active j).subset hb
      obtain ⟨h1, h2, h3⟩ := hmem b hbact
      have hne : b.locIdx ≠ (c.active.getD j default).locIdx := by
        have hy : b.locIdx ∈ (c.active.map Business.locIdx).eraseIdx j := by
          rw [← map_eraseIdx_comm]
          exact List.mem_map_of_mem _ hb
        have := nodup_eraseIdx_ne 0 (c.active.map Business.locIdx) j hnd
          (by simpa using hj) b.locIdx hy
        rwa [getD_map_at _ _ _ default _ hj] at this
      rw [burnAt_coords, hg]
      refine ⟨h1, h2, ?_⟩
      rw [getD_set_ne _ _ _ _ _ (Ne.symm hne)]
      exact h3
    · rw [ha, map_eraseIdx_comm]
      exact List.Nodup.sublist (List.eraseIdx_sublist _ j) hnd

lemma InvC_burnGo : ∀ (fuel : ℕ) (c : Core) (i : ℕ), InvC c → InvC (burnGo c i fuel) := by
  intro fuel
  induction fuel with
  | zero =>
      intro c i h
      exact h
  | succ k ih =>
      intro c i h
      unfold burnGo
      by_cases hc : i < c.active.length
      · simp only [hc, if_true]
        exact ih _ _ (InvC_burnAt c i h hc)
      · simp only [hc, if_false]
        exact h

lemma InvC_burnPhase (c : Core) (h : InvC c) : InvC (burnPhase c) :=
  InvC_burnGo _ c 0 h

lemma InvC_business_populate :
    ∀ (pairs : List (ℕ × BusinessType)) (c : Core),
      InvC c →
      (pairs.map Prod.fst).Nodup →
      (∀ pr ∈ pairs, pr.1 < c.coords.length ∧ c.flags.getD pr.1 true = true) →
      InvC (business_populate c pairs) := by
  intro pairs
  induction pairs with
  | nil =>
      intro c h _ _
      exact h
  | cons pr rest ih =>
      intro c hInv hnd hall
      obtain ⟨hi, hflag⟩ := hall pr (by simp)
      have hInv2 := InvC_startupAt c pr.2 pr.1 hInv hi hflag
      show InvC (business_populate (startupAt c pr.2 pr.1) rest)
      apply ih _ hInv2
      · exact (List.nodup_cons.mp (by simpa using hnd)).2
      · intro q hq
        have hqc := hall q (List.mem_cons_of_mem _ hq)
        have hne : q.1 ≠ pr.1 := by
          intro he
          have hpr : pr.1 ∉ rest.map Prod.fst :=
            (List.nodup_cons.mp (by simpa using hnd)).1
          exact hpr (he ▸ List.mem_map_of_mem Prod.fst hq)
        constructor
        · exact hqc.1
        · show (c.flags.set pr.1 false).getD q.1 true = true
          rw [getD_set_ne _ _ _ _ _ (Ne.symm hne)]
          exact hqc.2

/-! ## The cycle phases and the full city -/

/-- BusinessType.startup_score: the sum of people's unmet need for
this type's demand category over everyone inside initial_need_radius
of the location, divided by initial_need_threshold. -/
def startup_score (bt : BusinessType) (people : List Person) (loc : Point) : ℚ :=
  (people.foldl
    (fun acc p =>
      if insideB p.location loc bt.initial_need_radius then acc + needOf p bt.bname
      else acc)
    0) / bt.initial_need_threshold

/-- Person.generate: every demand type adds its Poisson draw times its
unit price to the person's accumulator (draws in registry order). -/
def generatePerson (dts : List DemandType) (ks : List ℕ) (p : Person) : Person :=
  { p with
    needs := (dts.zip ks).foldl
      (fun ns dk => ns.map
        (fun e => if e.1 = dk.1.dname then (e.1, e.2 + (dk.2 : ℚ) * dk.1.dprice) else e))
      p.needs }

/-- Phase 1 of City.city_cycle: every person generates, each with its
own draw list. -/
def generatePhase (dts : List DemandType) (draws : List (List ℕ)) (c : Core) : Core :=
  { c with
    people := (List.range c.people.length).map
      (fun i => generatePerson dts (draws.getD i [])
        (c.people.getD i ⟨(0, 0), []⟩)) }

/-- The scored registry for one vacant location, in iteration order. -/
def scoreboard (btypes : List BusinessType) (c : Core) (i : ℕ) :
    List (BusinessType × ℚ) :=
  btypes.map (fun bt => (bt, startup_score bt c.people (q2 (c.coords.getD i (0, 0)))))

/-- Phase 2 of City.city_cycle at one location index: if the location
is available, scan the registry for the best startup score and start
that type there when the best score reaches 1. -/
def evalVacant (btypes : List BusinessType) (c : Core) (i : ℕ) : Core :=
  if c.flags.getD i false = true then
    if 1 ≤ (selectBest (scoreboard btypes c i)).1 then
      match (selectBest (scoreboard btypes c i)).2 with
      | some bt => startupAt c bt i
      | none => c
    else c
  else c

/-- Phase 2 of City.city_cycle: scan every business location. -/
def startupPhase (btypes : List BusinessType) (c : Core) : Core :=
  (List.range c.coords.length).foldl (evalVacant btypes) c

/-- One needs-dict entry of Person.fulfill: compute the demand radius,
collect the active businesses strictly inside it (as positions into
the business list), and, if any, let the choice oracle pick one and
run give_biz against its cash.  Returns the new accumulator value and
the updated business list. -/
def fulfillNeed (dts : List DemandType) (pick : ℕ → ℕ) (ploc : Point)
    (needKey : String) (amt : ℚ) (bizs : List Business) : ℚ × List Business :=
  let dt := (dts.find? (fun d => d.dname == needKey)).getD ⟨needKey, 0, 0⟩
  let r := demand_radius dt amt
  let cand := (List.range bizs.length).filter
    (fun i => insideB (bizs.getD i default).location ploc r)
  if cand.length = 0 then (amt, bizs)
  else
    let ci := cand.getD (pick cand.length % cand.length) 0
    let b := bizs.getD ci default
    let pay := give_biz dt amt b.cash
    (pay.2, bizs.set ci { b with cash := pay.1 })

/-- One entry step of Person.fulfill's walk over the needs dict:
record the entry's new accumulator value, thread the business list. -/
def fulfillStep (dts : List DemandType) (pick : ℕ → ℕ) (ploc : Point)
    (acc : List (String × ℚ) × List Business) (e : String × ℚ) :
    List (String × ℚ) × List Business :=
  ((acc.1 ++ [(e.1, (fulfillNeed dts pick ploc e.1 e.2 acc.2).1)]),
   (fulfillNeed dts pick ploc e.1 e.2 acc.2).2)

/-- Person.fulfill: walk the needs dict in order, threading the
business list through each entry. -/
def fulfillPerson (dts : List DemandType) (pick : ℕ → ℕ) (p : Person)
    (bizs : List Business) : Person × List Business :=
  ({ p with needs := (p.needs.foldl (fulfillStep dts pick p.location) ([], bizs)).1 },
   (p.needs.foldl (fulfillStep dts pick p.location) ([], bizs)).2)

/-- One person step of phase 3: append the updated person, thread the
business list. -/
def fulfillPersonStep (dts : List DemandType) (pick : ℕ → ℕ)
    (acc : List Person × List Business) (p : Person) :
    List Person × List Business :=
  ((acc.1 ++ [(fulfillPerson dts pick p acc.2).1]),
   (fulfillPerson dts pick p acc.2).2)

/-- Phase 3 of City.city_cycle: every person fulfills in order,
threading the active business list. -/
def fulfillPhase (dts : List DemandType) (pick : ℕ → ℕ) (c : Core) : Core :=
  { c with
    people := (c.people.foldl (fulfillPersonStep dts pick) ([], c.active)).1,
    active := (c.people.foldl (fulfillPersonStep dts pick) ([], c.active)).2 }

/-- The spatial identity of a business: phase 3 only ever changes
cash, never this. -/
def skel (b : Business) : ℕ × Point := (b.locIdx, b.location)

/-- City.popreport: per demand type, how many people hold a positive
unmet need of that type, and the sum of those amounts. -/
def popreport (dts : List DemandType) (people : List Person) :
    List (String × ℕ × ℚ) :=
  dts.map (fun dt =>
    (dt.dname,
     (people.filter (fun p => decide (0 < needOf p dt.dname))).length,
     ((people.filter (fun p => decide (0 < needOf p dt.dname))).map
       (fun p => needOf p dt.dname)).sum))

/-- City.bizreport: per business type, the count of active businesses
of that type and the sum of their cash. -/
def bizreport (btypes : List BusinessType) (active : List Business) :
    List (String × ℕ × ℚ) :=
  btypes.map (fun bt =>
    (bt.bname,
     (active.filter (fun b => b.type == bt.bname)).length,
     ((active.filter (fun b => b.type == bt.bname)).map Business.cash).sum))

/-- The whole City object: registries, the mutable core, and the two
history sequences. -/
structure CityR where
  dtypes : List DemandType
  btypes : List BusinessType
  core : Core
  pophistory : List (List (String × ℕ × ℚ))
  bizhistory : List (List (String × ℕ × ℚ))

/-- The randomness one cycle consumes: per-person Poisson draw lists
and the fulfillment choice function. -/
structure CycleOracle where
  draws : List (List ℕ)
  pick : ℕ → ℕ

/-- City.city_cycle: age += 1, then the four agent phases in order,
then append one snapshot to each history. -/
def city_cycle (ct : CityR) (o : CycleOracle) : CityR :=
  let c0 := { ct.core with age := ct.core.age + 1 }
  let c1 := generatePhase ct.dtypes o.draws c0
  let c2 := startupPhase ct.btypes c1
  let c3 := fulfillPhase ct.dtypes o.pick c2
  let c4 := burnPhase c3
  { ct with
    core := c4,
    pophistory := ct.pophistory ++ [popreport ct.dtypes c4.people],
    bizhistory := ct.bizhistory ++ [bizreport ct.btypes c4.active] }

/-- City.life: n cycles in sequence, one oracle each. -/
def life (ct : CityR) (os : List CycleOracle) : CityR :=
  os.foldl city_cycle ct

/-- Person.__init__ given the placement result. -/
def mkPerson (dts : List DemandType) (loc : Point) : Person :=
  { location := loc, needs := init_needs dts }

/-- City.populate: each person placed by pop_density_rand on its own
draw stream; a stream that never lands inside the disk means the
constructor never returns (modelled as none). -/
def populate (dts : List DemandType) (size : ℚ) (pdraws : List (List Point)) :
    Option (List Person) :=
  pdraws.mapM (fun ds => (pop_density_rand size ds).map (mkPerson dts))

/-- City.__init__: people, the fixed location lattice (all available),
business_populate over the sampled (location index, business type)
pairs, empty failed list, age 0, and the first snapshot pair. -/
def constructCity (dts : List DemandType) (btypes : List BusinessType)
    (size : ℚ) (pdraws : List (List Point))
    (seedPairs : List (ℕ × BusinessType)) : Option CityR :=
  (populate dts size pdraws).map (fun ppl =>
    let core0 : Core :=
      { people := ppl, coords := gen_business_locations size,
        flags := List.replicate (gen_business_locations size).length true,
        active := [], failed := [], age := 0 }
    let core1 := business_populate core0 seedPairs
    { dtypes := dts, btypes := btypes, core := core1,
      pophistory := [popreport dts core1.people],
      bizhistory := [bizreport btypes core1.active] })

/-! ## Phase 3 never moves a business: skeleton preservation -/

lemma map_skel_set_cash (bizs : List Business) (ci : ℕ) (x : ℚ) :
    (bizs.set ci { bizs.getD ci default with cash := x }).map skel = bizs.map skel := by
  rcases Nat.lt_or_ge ci bizs.length with h | h
  · rw [List.map_set]
    have hg : (bizs.map skel).getD ci (skel default) = skel (bizs.getD ci default) :=
      getD_map_at skel bizs ci default _ h
    have hv : skel { bizs.getD ci default with cash := x } =
        skel (bizs.getD ci default) := rfl
    rw [hv, ← hg]
    exact set_getD_self _ _ _ (by simpa using h)
  · rw [List.set_eq_of_length_le h]

lemma fulfillNeed_skel (dts : List DemandType) (pick : ℕ → ℕ) (ploc : Point)
    (k : String) (amt : ℚ) (bizs : List Business) :
    ((fulfillNeed dts pick ploc k amt bizs).2).map skel = bizs.map skel := by
  simp only [fulfillNeed]
  split_ifs with h
  · rfl
  · exact map_skel_set_cash bizs _ _

lemma fulfillStep_skel (dts : List DemandType) (pick : ℕ → ℕ) (ploc : Point)
    (acc : List (String × ℚ) × List Business) (e : String × ℚ) :
    ((fulfillStep dts pick ploc acc e).2).map skel = (acc.2).map skel :=
  fulfillNeed_skel dts pick ploc e.1 e.2 acc.2

lemma foldl_fulfillStep_skel (dts : List DemandType) (pick : ℕ → ℕ) (ploc : Point) :
    ∀ (needs : List (String × ℚ)) (acc : List (String × ℚ) × List Business),
      ((needs.foldl (fulfillStep dts pick ploc) acc).2).map skel = (acc.2).map skel := by
  intro needs
  induction needs with
  | nil =>
      intro acc
      rfl
  | cons e rest ih =>
      intro acc
      rw [List.foldl_cons, ih]
      exact fulfillStep_skel dts pick ploc acc e

lemma fulfillPerson_skel (dts : List DemandType) (pick : ℕ → ℕ) (p : Person)
    (bizs : List Business) :
    ((fulfillPerson dts pick p bizs).2).map skel = bizs.map skel :=
  foldl_fulfillStep_skel dts pick p.location p.needs ([], bizs)

lemma fulfillPersonStep_skel (dts : List DemandType) (pick : ℕ → ℕ)
    (acc : List Person × List Business) (p : Person) :
    ((fulfillPersonStep dts pick acc p).2).map skel = (acc.2).map skel :=
  fulfillPerson_skel dts pick p acc.2

lemma foldl_personStep_skel (dts : List DemandType) (pick : ℕ → ℕ) :
    ∀ (people : List Person) (acc : List Person × List Business),
      ((people.foldl (fulfillPersonStep dts pick) acc).2).map skel = (acc.2).map skel := by
  intro people
  induction people with
  | nil =>
      intro acc
      rfl
  | cons p rest ih =>
      intro acc
      rw [List.foldl_cons, ih]
      exact fulfillPersonStep_skel dts pick acc p

lemma fulfillPhase_active_skel (dts : List DemandType) (pick : ℕ → ℕ) (c : Core) :
    ((fulfillPhase dts pick c).active).map skel = c.active.map skel :=
  foldl_personStep_skel dts pick c.people ([], c.active)

lemma InvC_of_skel (c : Core) (newA : List Business) (newP : List Person)
    (h : InvC c) (hs : newA.map skel = c.active.map skel) :
    InvC { c with people := newP, active := newA } := by
  obtain ⟨hcn, hfl, hmem, hnd⟩ := h
  refine ⟨hcn, hfl, ?_, ?_⟩
  · intro b hb
    have hin : skel b ∈ newA.map skel := List.mem_map_of_mem skel hb
    rw [hs] at hin
    rcases List.mem_map.mp hin with ⟨b0, hb0, hsk⟩
    obtain ⟨h1, h2, h3⟩ := hmem b0 hb0
    have hloc : b0.locIdx = b.locIdx := congrArg Prod.fst hsk
    have hloc2 : b0.location = b.location := congrArg Prod.snd hsk
    rw [← hloc, ← hloc2]
    exact ⟨h1, h2, h3⟩
  · have hm : newA.map Business.locIdx = c.active.map Business.locIdx := by
      have e1 : newA.map Business.locIdx = (newA.map skel).map Prod.fst := by
        rw [List.map_map]
        rfl
      have e2 : c.active.map Business.locIdx = (c.active.map skel).map Prod.fst := by
        rw [List.map_map]
        rfl
      rw [e1, e2, hs]
    rw [hm]
    exact hnd

lemma InvC_fulfillPhase (dts : List DemandType) (pick : ℕ → ℕ) (c : Core)
    (h : InvC c) : InvC (fulfillPhase dts pick c) :=
  InvC_of_skel c _ _ h (fulfillPhase_active_skel dts pick c)

lemma InvC_generatePhase (dts : List DemandType) (draws : List (List ℕ)) (c : Core)
    (h : InvC c) : InvC (generatePhase dts draws c) :=
  h

/-! ## Phase 2 preservation -/

lemma flags_getD_true_lt {l : List Bool} {i : ℕ} (h : l.getD i false = true) :
    i < l.length ∧ l.getD i true = true := by
  rcases Nat.lt_or_ge i l.length with hl | hl
  · refine ⟨hl, ?_⟩
    rw [List.getD_eq_getElem _ _ hl] at h ⊢
    exact h
  · rw [List.getD_eq_default _ _ hl] at h
    exact absurd h Bool.false_ne_true

lemma InvC_evalVacant (btypes : List BusinessType) (c : Core) (i : ℕ)
    (h : InvC c) : InvC (evalVacant btypes c i) := by
  unfold evalVacant
  split_ifs with hflag hbest
  · cases hm : (selectBest (scoreboard btypes c i)).2 with
    | none => exact h
    | some bt =>
        obtain ⟨hlen, htrue⟩ := flags_getD_true_lt hflag
        exact InvC_startupAt c bt i h (h.2.1 ▸ hlen) htrue
  · exact h
  · exact h

lemma InvC_foldl_evalVacant (btypes : List BusinessType) :
    ∀ (l : List ℕ) (c : Core), InvC c → InvC (l.foldl (evalVacant btypes) c) := by
  intro l
  induction l with
  | nil =>
      intro c h
      exact h
  | cons i rest ih =>
      intro c h
      rw [List.foldl_cons]
      exact ih _ (InvC_evalVacant btypes c i h)

lemma InvC_startupPhase (btypes : List BusinessType) (c : Core) (h : InvC c) :
    InvC (startupPhase btypes c) :=
  InvC_foldl_evalVacant btypes _ c h

/-! ## Ages through the phases -/

lemma startupAt_age (c : Core) (bt : BusinessType) (i : ℕ) :
    (startupAt c bt i).age = c.age := rfl

lemma evalVacant_age (btypes : List BusinessType) (c : Core) (i : ℕ) :
    (evalVacant btypes c i).age = c.age := by
  unfold evalVacant
  split_ifs with h1 h2
  · cases hm : (selectBest (scoreboard btypes c i)).2 <;> rfl
  · rfl
  · rfl

lemma foldl_evalVacant_age (btypes : List BusinessType) :
    ∀ (l : List ℕ) (c : Core), (l.foldl (evalVacant btypes) c).age = c.age := by
  intro l
  induction l with
  | nil =>
      intro c
      rfl
  | cons i rest ih =>
      intro c
      rw [List.foldl_cons, ih, evalVacant_age]

lemma startupPhase_age (btypes : List BusinessType) (c : Core) :
    (startupPhase btypes c).age = c.age :=
  foldl_evalVacant_age btypes _ c

lemma generatePhase_age (dts : List DemandType) (draws : List (List ℕ)) (c : Core) :
    (generatePhase dts draws c).age = c.age := rfl

lemma fulfillPhase_age (dts : List DemandType) (pick : ℕ → ℕ) (c : Core) :
    (fulfillPhase dts pick c).age = c.age := rfl

lemma burnGo_age : ∀ (fuel : ℕ) (c : Core) (i : ℕ), (burnGo c i fuel).age = c.age := by
  intro fuel
  induction fuel with
  | zero =>
      intro c i
      rfl
  | succ k ih =>
      intro c i
      unfold burnGo
      by_cases hc : i < c.active.length
      · simp only [hc, if_true]
        rw [ih, burnAt_age]
      · simp only [hc, if_false]

lemma burnPhase_age (c : Core) : (burnPhase c).age = c.age :=
  burnGo_age _ c 0

lemma business_populate_age :
    ∀ (pairs : List (ℕ × BusinessType)) (c : Core),
      (business_populate c pairs).age = c.age := by
  intro pairs
  induction pairs with
  | nil =>
      intro c
      rfl
  | cons pr rest ih =>
      intro c
      show (business_populate (startupAt c pr.2 pr.1) rest).age = c.age
      rw [ih]
      rfl

lemma city_cycle_age (ct : CityR) (o : CycleOracle) :
    (city_cycle ct o).core.age = ct.core.age + 1 := by
  show (burnPhase _).age = _
  rw [burnPhase_age, fulfillPhase_age, startupPhase_age, generatePhase_age]

lemma InvC_city_cycle (ct : CityR) (o : CycleOracle) (h : InvC ct.core) :
    InvC (city_cycle ct o).core := by
  show InvC (burnPhase (fulfillPhase _ _ (startupPhase _ (generatePhase _ _
    { ct.core with age := ct.core.age + 1 }))))
  have h0 : InvC { ct.core with age := ct.core.age + 1 } := h
  exact InvC_burnPhase _
    (InvC_fulfillPhase _ _ _ (InvC_startupPhase _ _ (InvC_generatePhase _ _ _ h0)))

/-! ## Construction -/

lemma getD_replicate_true (n i : ℕ) : (List.replicate n true).getD i true = true := by
  rcases Nat.lt_or_ge i n with h | h
  · have h2 : i < (List.replicate n true).length := by simpa using h
    rw [List.getD_eq_getElem _ _ h2]
    simp
  · rw [List.getD_eq_default _ _ (by simpa using h)]

lemma InvC_constructCity (dts : List DemandType) (bts : List BusinessType)
    (size : ℚ) (pdraws : List (List Point)) (seeds : List (ℕ × BusinessType))
    (ct : CityR) (hct : constructCity dts bts size pdraws seeds = some ct)
    (hnd : (seeds.map Prod.fst).Nodup)
    (hbd : ∀ pr ∈ seeds, pr.1 < (gen_business_locations size).length) :
    InvC ct.core := by
  unfold constructCity at hct
  cases hp : populate dts size pdraws with
  | none =>
      rw [hp] at hct
      exact absurd hct (by simp)
  | some ppl =>
      rw [hp] at hct
      simp only [Option.map_some'] at hct
      obtain rfl := Option.some.inj hct
      show InvC (business_populate _ seeds)
      apply InvC_business_populate seeds _ ?_ hnd ?_
      · refine ⟨gen_business_locations_nodup size, by simp, ?_, by simp⟩
        intro b hb
        simp at hb
      · intro pr hpr
        exact ⟨hbd pr hpr, getD_replicate_true _ _⟩

lemma q2_injective : Function.Injective q2 := by
  intro a b h
  have h1 : ((a.1 : ℚ)) = ((b.1 : ℚ)) := congrArg Prod.fst h
  have h2 : ((a.2 : ℚ)) = ((b.2 : ℚ)) := congrArg Prod.snd h
  have e1 : a.1 = b.1 := by exact_mod_cast h1
  have e2 : a.2 = b.2 := by exact_mod_cast h2
  exact Prod.ext e1 e2

lemma InvC_occupied (c : Core) (h : InvC c) :
    (∀ loc ∈ c.active.map Business.location, loc ∈ c.coords.map q2) ∧
    (c.active.map Business.location).Nodup := by
  obtain ⟨hcn, hfl, hmem, hnd⟩ := h
  constructor
  · intro loc hloc
    rcases List.mem_map.mp hloc with ⟨b, hb, rfl⟩
    obtain ⟨h1, h2, _⟩ := hmem b hb
    rw [h2]
    apply List.mem_map_of_mem q2
    rw [List.getD_eq_getElem _ _ h1]
    exact List.getElem_mem h1
  · have hrw : c.active.map Business.location =
        (c.active.map Business.locIdx).map (fun i => q2 (c.coords.getD i (0, 0))) := by
      rw [List.map_map]
      apply List.map_congr_left
      intro b hb
      exact (hmem b hb).2.1
    rw [hrw]
    apply List.Nodup.map_on ?_ hnd
    intro x hx y hy hxy
    rcases List.mem_map.mp hx with ⟨bx, hbx, rfl⟩
    rcases List.mem_map.mp hy with ⟨by2, hby, rfl⟩
    have hxlt : bx.locIdx < c.coords.length := (hmem bx hbx).1
    have hylt : by2.locIdx < c.coords.length := (hmem by2 hby).1
    have hco : c.coords.getD bx.locIdx (0, 0) = c.coords.getD by2.locIdx (0, 0) :=
      q2_injective hxy
    rw [List.getD_eq_getElem _ _ hxlt, List.getD_eq_getElem _ _ hylt] at hco
    have : (⟨bx.locIdx, hxlt⟩ : Fin c.coords.length) = ⟨by2.locIdx, hylt⟩ :=
      (List.Nodup.get_inj_iff hcn).mp hco
    exact congrArg Fin.val this

/-- C7: at every point in a run — after construction, across each
startup, each burn, and whole cycles — the locations occupied by
active businesses form a subset of the fixed location set generated at
construction, and no two active businesses occupy the same
location. -/
theorem c7_occupancy :
    (∀ size : ℚ, (gen_business_locations size).Nodup) ∧
    (∀ (dts : List DemandType) (bts : List BusinessType) (size : ℚ)
       (pdraws : List (List Point)) (seeds : List (ℕ × BusinessType)) (ct : CityR),
       constructCity dts bts size pdraws seeds = some ct →
       (seeds.map Prod.fst).Nodup →
       (∀ pr ∈ seeds, pr.1 < (gen_business_locations size).length) →
       InvC ct.core) ∧
    (∀ (c : Core) (bt : BusinessType) (i : ℕ),
       InvC c → i < c.coords.length → c.flags.getD i true = true →
       InvC (startupAt c bt i)) ∧
    (∀ (c : Core) (j : ℕ), InvC c → j < c.active.length → InvC (burnAt c j)) ∧
    (∀ (ct : CityR) (o : CycleOracle), InvC ct.core → InvC (city_cycle ct o).core) ∧
    (∀ c : Core, InvC c →
       (∀ loc ∈ c.active.map Business.location, loc ∈ c.coords.map q2) ∧
       (c.active.map Business.location).Nodup) :=
  ⟨fun size => gen_business_locations_nodup size,
   fun dts bts size pdraws seeds ct h1 h2 h3 =>
     InvC_constructCity dts bts size pdraws seeds ct h1 h2 h3,
   fun c bt i h1 h2 h3 => InvC_startupAt c bt i h1 h2 h3,
   fun c j h1 h2 => InvC_burnAt c j h1 h2,
   fun ct o h => InvC_city_cycle ct o h,
   fun c h => InvC_occupied c h⟩

/-! ## History lengths (C10) -/

/-- The history-bookkeeping invariant between cycles. -/
def HistInv (ct : CityR) : Prop :=
  ct.pophistory.length = ct.core.age + 1 ∧
  ct.bizhistory.length = ct.pophistory.length

lemma constructCity_hist (dts : List DemandType) (bts : List BusinessType)
    (size : ℚ) (pdraws : List (List Point)) (seeds : List (ℕ × BusinessType))
    (ct : CityR) (hct : constructCity dts bts size pdraws seeds = some ct) :
    ct.pophistory.length = 1 ∧ ct.bizhistory.length = 1 ∧ ct.core.age = 0 := by
  unfold constructCity at hct
  cases hp : populate dts size pdraws with
  | none =>
      rw [hp] at hct
      exact absurd hct (by simp)
  | some ppl =>
      rw [hp] at hct
      simp only [Option.map_some'] at hct
      obtain rfl := Option.some.inj hct
      refine ⟨rfl, rfl, ?_⟩
      show (business_populate _ seeds).age = 0
      rw [business_populate_age]

lemma city_cycle_hist (ct : CityR) (o : CycleOracle) :
    (city_cycle ct o).pophistory.length = ct.pophistory.length + 1 ∧
    (city_cycle ct o).bizhistory.length = ct.bizhistory.length + 1 := by
  constructor
  · show (ct.pophistory ++ [_]).length = _
    rw [List.length_append]
    rfl
  · show (ct.bizhistory ++ [_]).length = _
    rw [List.length_append]
    rfl

lemma histInv_city_cycle (ct : CityR) (o : CycleOracle) (h : HistInv ct) :
    HistInv (city_cycle ct o) := by
  obtain ⟨h1, h2⟩ := h
  obtain ⟨hp, hb⟩ := city_cycle_hist ct o
  constructor
  · rw [hp, city_cycle_age, h1]
  · rw [hb, hp, h2]

lemma histInv_life :
    ∀ (os : List CycleOracle) (ct : CityR), HistInv ct → HistInv (life ct os) := by
  intro os
  induction os with
  | nil =>
      intro ct h
      exact h
  | cons o rest ih =>
      intro ct h
      show HistInv (rest.foldl city_cycle (city_cycle ct o))
      exact ih _ (histInv_city_cycle ct o h)

/-- C10: construction leaves exactly one record in each history with
age 0; every city_cycle appends exactly one record to each history and
advances the age by one; hence at every point between cycles both
histories have length age + 1 and are equal in length. -/
theorem c10_history_lengths :
    (∀ (dts : List DemandType) (bts : List BusinessType) (size : ℚ)
       (pdraws : List (List Point)) (seeds : List (ℕ × BusinessType)) (ct : CityR),
       constructCity dts bts size pdraws seeds = some ct →
       ct.pophistory.length = 1 ∧ ct.bizhistory.length = 1 ∧ ct.core.age = 0) ∧
    (∀ (ct : CityR) (o : CycleOracle),
       (city_cycle ct o).pophistory.length = ct.pophistory.length + 1 ∧
       (city_cycle ct o).bizhistory.length = ct.bizhistory.length + 1 ∧
       (city_cycle ct o).core.age = ct.core.age + 1) ∧
    (∀ (ct : CityR) (os : List CycleOracle), HistInv ct → HistInv (life ct os)) ∧
    (∀ (dts : List DemandType) (bts : List BusinessType) (size : ℚ)
       (pdraws : List (List Point)) (seeds : List (ℕ × BusinessType))
       (ct : CityR) (os : List CycleOracle),
       constructCity dts bts size pdraws seeds = some ct →
       HistInv (life ct os)) := by
  refine ⟨?_, ?_, ?_, ?_⟩
  · intro dts bts size pdraws seeds ct hct
    exact constructCity_hist dts bts size pdraws seeds ct hct
  · intro ct o
    obtain ⟨hp, hb⟩ := city_cycle_hist ct o
    exact ⟨hp, hb, city_cycle_age ct o⟩
  · intro ct os h
    exact histInv_life os ct h
  · intro dts bts size pdraws seeds ct os hct
    obtain ⟨h1, h2, h3⟩ := constructCity_hist dts bts size pdraws seeds ct hct
    apply histInv_life
    exact ⟨by rw [h1, h3], by rw [h2, h1]⟩

/-! ## Concrete instances -/

/-- A business type with burn rate 1 for the concrete runs. -/
def btC2 : BusinessType := ⟨"shop", 10, 2, 2, 1⟩

/-- A business that dies on its next burn: cash 1/2 against burn
rate 1. -/
def bizA : Business := ⟨0, (0, 0), btC2, 1/2, 0, none, none⟩

/-- The business listed right after bizA, cash 10. -/
def bizB : Business := ⟨1, (1, 0), btC2, 10, 0, none, none⟩

/-- A city core entering phase 4 with active = [bizA, bizB]. -/
def coreC2 : Core := ⟨[], [(0, 0), (1, 0)], [false, false], [bizA, bizB], [], 5⟩

/-- An all-vacant one-location core. -/
def coreDemo : Core := ⟨[], [(0, 0)], [true], [], [], 0⟩

/-- The city that constructCity [] [] (-1) [] [] produces: radius -1
has an empty lattice and no people. -/
def ctDemo : CityR := ⟨[], [], ⟨[], [], [], [], [], 0⟩, [[]], [[]]⟩

lemma constructCity_demo : constructCity [] [] (-1) [] [] = some ctDemo := by
  have ht : ratTrunc (-1) = -1 := by norm_num [ratTrunc]
  have hlr : latticeRange (ratTrunc (-1)) = [] := by
    rw [ht]
    rfl
  have hg : gen_business_locations (-1) = [] := by
    rw [gen_business_locations, hlr]
    rfl
  have hpop : populate ([] : List DemandType) (-1) [] = some [] := rfl
  unfold constructCity
  rw [hpop]
  simp only [Option.map_some']
  simp [hg, business_populate, popreport, bizreport, ctDemo]

/-- C2: phase 4 removes a dying business from the very list it is
iterating, so the business listed right after it is skipped that
cycle.  With active = [bizA (cash 1/2, burn rate 1), bizB (cash 10,
burn rate 1)], bizA dies mid-scan and bizB's cash is still 10 after
the whole phase — it was never burned — while bizA's removal (and the
freeing of its location) happened during the scan, not after it. -/
theorem c2_interleaved_removal_skips_burn :
    (burnPhase coreC2).active = [bizB] ∧
    (burnPhase coreC2).active.map Business.cash = [10] ∧
    (burnPhase coreC2).failed.map Business.cash = [-(1/2)] ∧
    (burnPhase coreC2).flags = [true, false] := by
  norm_num [burnPhase, burnGo, burnAt, die, bizfail, coreC2, bizA, bizB, btC2, List.getD]

/-- Concrete instantiation of c7_occupancy. -/
theorem c7_occupancy_witness :
    InvC coreDemo ∧
    (0 < coreDemo.coords.length ∧ coreDemo.flags.getD 0 true = true ∧
      InvC (startupAt coreDemo btC2 0)) ∧
    (0 < (startupAt coreDemo btC2 0).active.length ∧
      InvC (burnAt (startupAt coreDemo btC2 0) 0)) ∧
    (constructCity [] [] (-1) [] [] = some ctDemo ∧ InvC ctDemo.core) ∧
    InvC (city_cycle ctDemo ⟨[], fun _ => 0⟩).core ∧
    ((∀ loc ∈ coreDemo.active.map Business.location, loc ∈ coreDemo.coords.map q2) ∧
     (coreDemo.active.map Business.location).Nodup) := by
  have h7 := c7_occupancy
  have h0 : InvC coreDemo := by
    refine ⟨by simp [coreDemo], by simp [coreDemo], ?_, by simp [coreDemo]⟩
    intro b hb
    simp [coreDemo] at hb
  have hictc : InvC ctDemo.core :=
    h7.2.1 [] [] (-1) [] [] ctDemo constructCity_demo (by simp) (by simp)
  have h1 : InvC (startupAt coreDemo btC2 0) :=
    h7.2.2.1 coreDemo btC2 0 h0 (by simp [coreDemo]) (by simp [coreDemo, List.getD])
  have hlen : 0 < (startupAt coreDemo btC2 0).active.length := by
    simp [startupAt, coreDemo]
  have h2 : InvC (burnAt (startupAt coreDemo btC2 0) 0) :=
    h7.2.2.2.1 _ 0 h1 hlen
  have h5 : InvC (city_cycle ctDemo ⟨[], fun _ => 0⟩).core :=
    h7.2.2.2.2.1 ctDemo _ hictc
  exact ⟨h0,
    ⟨by simp [coreDemo], by simp [coreDemo, List.getD], h1⟩,
    ⟨hlen, h2⟩,
    ⟨constructCity_demo, hictc⟩,
    h5,
    h7.2.2.2.2.2 coreDemo h0⟩

/-- Concrete instantiation of c10_history_lengths. -/
theorem c10_history_lengths_witness :
    (constructCity [] [] (-1) [] [] = some ctDemo ∧
     ctDemo.pophistory.length = 1 ∧ ctDemo.bizhistory.length = 1 ∧
     ctDemo.core.age = 0) ∧
    HistInv ctDemo ∧
    HistInv (life ctDemo [⟨[], fun _ => 0⟩]) := by
  have h10 := c10_history_lengths
  refine ⟨⟨constructCity_demo, h10.1 [] [] (-1) [] [] ctDemo constructCity_demo⟩, ?_, ?_⟩
  · exact ⟨by simp [ctDemo], by simp [ctDemo]⟩
  · exact h10.2.2.1 ctDemo [⟨[], fun _ => 0⟩] ⟨by simp [ctDemo], by simp [ctDemo]⟩

end EconModel
